import Mathlib

/-!
Shallow embedding of `sk::CachedResource` from `src/cached_resource.hpp`
(Skribble repository): a checkpointed undo/redo history buffer.

The C++ state is two `std::deque`s (`m_data`, `m_cache`), two iterators
(`m_dataLimit`, `m_cacheLimit`) and a flag `m_underUndo`.  Iterators into
the deques are modelled as `Nat` offsets from `begin()`; the compile-time
template parameter `m_cacheGap` becomes an explicit `gap : Nat` argument and
the raw function pointer `m_function : void (*)(T&, T&)` becomes a pure
combiner `f : α → α → α` (accumulator first, as in the source).  Operations
whose C++ counterpart can dereference an out-of-range iterator (undefined
behaviour) return `Option` and yield `none` exactly at the out-of-range
access.
-/

namespace Skribble

structure CR (α : Type) where
  data : List α
  cache : List α
  dataLimit : Nat
  cacheLimit : Nat
  underUndo : Bool
deriving DecidableEq, Repr

variable {α : Type}

/-- The default-constructed buffer: both deques empty, both limit iterators
at `begin()`, not in undo mode. -/
def init : CR α := ⟨[], [], 0, 0, false⟩

/-- `getNumCaches`: `m_cache.empty() ? 0 : distance(m_cache.begin(), m_cacheLimit)`. -/
def getNumCaches (s : CR α) : Nat :=
  if s.cache.isEmpty then 0 else s.cacheLimit

/-- `noCaches`: `getNumCaches() <= 0`. -/
def noCaches (s : CR α) : Prop := getNumCaches s = 0

instance (s : CR α) : Decidable (noCaches s) := by
  unfold noCaches; infer_instance

/-- `getIteratorPastCache`: advance `m_data.begin()` by
`min(distance(begin, m_dataLimit), getNumCaches() * m_cacheGap)`. -/
def getIteratorPastCache (gap : Nat) (s : CR α) : Nat :=
  min s.dataLimit (getNumCaches s * gap)

/-- `clearUndo`: pop `m_data` back to `m_dataLimit`; if no valid caches,
clear the whole cache, else pop `m_cache` back to `m_cacheLimit`; leave
undo mode.  (After `m_cache.clear()` the C++ `m_cacheLimit` is dangling but
unobservable until rewritten by checkpoint creation; it is modelled as 0,
the value `getNumCaches` reports for an empty cache.) -/
def clearUndo (s : CR α) : CR α :=
  if getNumCaches s = 0 then
    ⟨s.data.take s.dataLimit, [], s.dataLimit, 0, false⟩
  else
    ⟨s.data.take s.dataLimit, s.cache.take s.cacheLimit, s.dataLimit, s.cacheLimit, false⟩

/-- The checkpoint-creation step of `emplaceBack`: create the first
checkpoint when `m_data.size() == m_cacheGap` (seed with element 0, fold
the rest), or a subsequent checkpoint when `m_data.size()` is a positive
multiple of the gap (copy `m_cache.back()`, fold from
`getIteratorPastCache()` to the end); otherwise do nothing.
(`m_cache.back()` on an empty cache is undefined behaviour in the source;
that branch leaves the state unchanged here.) -/
def makeCache (gap : Nat) (f : α → α → α) (s1 : CR α) : CR α :=
  if s1.data.length = gap then
    match s1.data with
    | [] => s1
    | a :: rest =>
      ⟨s1.data, s1.cache ++ [rest.foldl f a], s1.dataLimit, s1.cache.length + 1, s1.underUndo⟩
  else if s1.data.length ≠ 0 ∧ s1.data.length % gap = 0 then
    match s1.cache.getLast? with
    | none => s1
    | some c =>
      ⟨s1.data, s1.cache ++ [(s1.data.drop (getIteratorPastCache gap s1)).foldl f c],
        s1.dataLimit, s1.cache.length + 1, s1.underUndo⟩
  else s1

/-- `emplaceBack`: if under undo, truncate via `clearUndo` and skip
checkpoint creation when the truncated size is a multiple of the gap
(`goto skip_cache`); otherwise run the checkpoint-creation step; finally
push the element and set `m_dataLimit = m_data.end()`. -/
def emplaceBack (gap : Nat) (f : α → α → α) (s : CR α) (x : α) : CR α :=
  let s2 :=
    if s.underUndo = true then
      let s1 := clearUndo s
      if s1.data.length % gap = 0 then s1 else makeCache gap f s1
    else makeCache gap f s
  ⟨s2.data ++ [x], s2.cache, s2.data.length + 1, s2.cacheLimit, s2.underUndo⟩

/-- `getLastCache`: `nullptr` when `noCaches()`, else `&*(m_cacheLimit - 1)`
(`none` when that dereference is out of range). -/
def getLastCache (s : CR α) : Option α :=
  if getNumCaches s = 0 then none else s.cache.get? (s.cacheLimit - 1)

/-- `reduceTo(T& value)`: with no valid cache, fold every element in
`[begin, m_dataLimit)`; otherwise fold the last valid checkpoint into the
accumulator and then the elements in `[getIteratorPastCache(), m_dataLimit)`.
`none` models the undefined checkpoint dereference when `m_cacheLimit - 1`
is out of range. -/
def reduceTo (gap : Nat) (f : α → α → α) (s : CR α) (v : α) : Option α :=
  if getNumCaches s = 0 then
    some ((s.data.take s.dataLimit).foldl f v)
  else
    match s.cache.get? (s.cacheLimit - 1) with
    | none => none
    | some c =>
      some (((s.data.take s.dataLimit).drop (getIteratorPastCache gap s)).foldl f (f v c))

/-- Number of combiner (or visitor) applications a `reduceTo` call performs:
one per history element visited, plus one for the checkpoint when a valid
checkpoint is used. -/
def reduceCount (gap : Nat) (s : CR α) : Nat :=
  if getNumCaches s = 0 then
    (s.data.take s.dataLimit).length
  else
    1 + ((s.data.take s.dataLimit).drop (getIteratorPastCache gap s)).length

/-- `getLast`: `*(m_dataLimit - 1)`; `none` models the undefined
dereference when `m_dataLimit` is at `begin()` or past the end. -/
def getLast (s : CR α) : Option α :=
  if s.dataLimit = 0 then none else s.data.get? (s.dataLimit - 1)

/-- `undo`: always set `m_underUndo = true`; return `false` when
`m_dataLimit` is at `begin()`; otherwise step `m_dataLimit` back one and,
when valid caches exist and the pre-decrement distance is a multiple of the
gap, step `m_cacheLimit` back one as well; return `true`. -/
def undo (gap : Nat) (s : CR α) : CR α × Bool :=
  let s0 : CR α := { s with underUndo := true }
  if s0.dataLimit = 0 then (s0, false)
  else if getNumCaches s0 ≠ 0 ∧ s0.dataLimit % gap = 0 then
    ({ s0 with dataLimit := s0.dataLimit - 1, cacheLimit := s0.cacheLimit - 1 }, true)
  else
    ({ s0 with dataLimit := s0.dataLimit - 1 }, true)

/-- `redo`: no-op returning `false` unless under undo; otherwise record
whether `m_dataLimit + 1 == m_data.end()` (clearing `m_underUndo` and
making the return value `false` when so), increment `m_dataLimit`, and
increment `m_cacheLimit` when the cache is non-empty and the new distance
is a multiple of the gap. -/
def redo (gap : Nat) (s : CR α) : CR α × Bool :=
  if s.underUndo = true then
    let s1 : CR α :=
      { s with dataLimit := s.dataLimit + 1,
               underUndo := if s.dataLimit + 1 = s.data.length then false else s.underUndo }
    let s2 : CR α :=
      if s1.cache.isEmpty = false ∧ s1.dataLimit % gap = 0 then
        { s1 with cacheLimit := s1.cacheLimit + 1 }
      else s1
    (s2, if s.dataLimit + 1 = s.data.length then false else true)
  else (s, false)

/-- One call site operation on the buffer. -/
inductive Op (α : Type) where
  | app (x : α)
  | undo
  | redo
deriving DecidableEq, Repr

/-- Apply one operation, discarding the boolean result of undo/redo. -/
def step (gap : Nat) (f : α → α → α) (s : CR α) : Op α → CR α
  | .app x => emplaceBack gap f s x
  | .undo => (undo gap s).1
  | .redo => (redo gap s).1

/-- Run a sequence of operations from the fresh buffer. -/
def run (gap : Nat) (f : α → α → α) (ops : List (Op α)) : CR α :=
  ops.foldl (step gap f) init

/-- Iterated `undo`, keeping only the state. -/
def undoIter (gap : Nat) (s : CR α) : Nat → CR α
  | 0 => s
  | k + 1 => (undo gap (undoIter gap s k)).1

/-- Iterated `redo`, keeping only the state. -/
def redoIter (gap : Nat) (s : CR α) : Nat → CR α
  | 0 => s
  | k + 1 => (redo gap (redoIter gap s k)).1

/-- The from-scratch combiner fold of a block of history: seed with the
first element and fold the rest in order (`none` for an empty block).
This is what checkpoint `i` is supposed to hold for the block
`[0, (i+1)*gap)`. -/
def seedFold (f : α → α → α) : List α → Option α
  | [] => none
  | a :: r => some (r.foldl f a)

lemma seedFold_cons_append (f : α → α → α) (a : α) (r l2 : List α) :
    seedFold f ((a :: r) ++ l2) = some (l2.foldl f (r.foldl f a)) := by
  simp [seedFold, List.foldl_append]

lemma run_concat (gap : Nat) (f : α → α → α) (ops : List (Op α)) (op : Op α) :
    run gap f (ops ++ [op]) = step gap f (run gap f ops) op := by
  simp [run, List.foldl_append]

lemma getNumCaches_mk (d c : List α) (dl cl : Nat) (b : Bool) :
    getNumCaches (⟨d, c, dl, cl, b⟩ : CR α) = if c.isEmpty then 0 else cl := rfl

/-- `makeCache` when neither creation condition holds. -/
lemma makeCache_none (gap : Nat) (f : α → α → α) (s : CR α)
    (h1 : s.data.length ≠ gap)
    (h2 : ¬(s.data.length ≠ 0 ∧ s.data.length % gap = 0)) :
    makeCache gap f s = s := by
  rw [makeCache, if_neg h1, if_neg h2]

/-- `makeCache` when the data size is exactly the gap: first checkpoint. -/
lemma makeCache_first (gap : Nat) (f : α → α → α) (s : CR α) (a : α) (rest : List α)
    (hd : s.data = a :: rest) (h1 : s.data.length = gap) :
    makeCache gap f s =
      ⟨s.data, s.cache ++ [rest.foldl f a], s.dataLimit, s.cache.length + 1, s.underUndo⟩ := by
  rw [makeCache, if_pos h1]
  simp only [hd]

/-- `makeCache` when the data size is a positive multiple of the gap other
than the gap itself: copies the last checkpoint and folds the newest block
into it. -/
lemma makeCache_next (gap : Nat) (f : α → α → α) (s : CR α) (c : α)
    (h1 : s.data.length ≠ gap) (h2 : s.data.length ≠ 0) (h3 : s.data.length % gap = 0)
    (hc : s.cache.getLast? = some c) :
    makeCache gap f s =
      ⟨s.data, s.cache ++ [(s.data.drop (getIteratorPastCache gap s)).foldl f c],
        s.dataLimit, s.cache.length + 1, s.underUndo⟩ := by
  rw [makeCache, if_neg h1, if_pos ⟨h2, h3⟩, hc]

/-- `emplaceBack` on a non-undo state pushes onto the checkpoint-creation
result. -/
lemma emplaceBack_not_undo (gap : Nat) (f : α → α → α) (s : CR α) (x : α)
    (hu : s.underUndo = false) :
    emplaceBack gap f s x =
      ⟨(makeCache gap f s).data ++ [x], (makeCache gap f s).cache,
        (makeCache gap f s).data.length + 1, (makeCache gap f s).cacheLimit,
        (makeCache gap f s).underUndo⟩ := by
  rw [emplaceBack]
  simp only [hu, Bool.false_eq_true, if_false]

/-- `emplaceBack` under undo: after truncation the checkpoint-creation step
is always bypassed (either by `goto skip_cache` or because neither creation
condition can hold), so the push happens on the truncated state directly. -/
lemma emplaceBack_under_undo (gap : Nat) (f : α → α → α) (s : CR α) (x : α)
    (hu : s.underUndo = true) :
    emplaceBack gap f s x =
      ⟨(clearUndo s).data ++ [x], (clearUndo s).cache,
        (clearUndo s).data.length + 1, (clearUndo s).cacheLimit, false⟩ := by
  have hcu : (clearUndo s).underUndo = false := by
    unfold clearUndo; split <;> rfl
  rw [emplaceBack]
  simp only [hu, if_true, if_pos rfl]
  by_cases hmod : (clearUndo s).data.length % gap = 0
  · simp only [if_pos hmod, hcu]
  · have h1 : (clearUndo s).data.length ≠ gap := by
      intro hlen
      exact hmod (by rw [hlen, Nat.mod_self])
    have hmc := makeCache_none gap f (clearUndo s) h1 (fun h => hmod h.2)
    simp only [if_neg hmod, hmc, hcu]

/-- A successful `undo` step: the deques are untouched, the data cursor
moves back one, the cache cursor does not grow, undo mode is entered and
`true` is returned. -/
lemma undo_step (gap : Nat) (s : CR α) (h : s.dataLimit ≠ 0) :
    (undo gap s).1.data = s.data ∧ (undo gap s).1.cache = s.cache ∧
    (undo gap s).1.dataLimit = s.dataLimit - 1 ∧
    (undo gap s).1.cacheLimit ≤ s.cacheLimit ∧
    (undo gap s).1.underUndo = true ∧ (undo gap s).2 = true := by
  by_cases hc : getNumCaches ({ s with underUndo := true } : CR α) ≠ 0 ∧ s.dataLimit % gap = 0
  · simp [undo, h, hc, Nat.sub_le]
  · simp [undo, h, hc]

/-- A `redo` step from undo mode: the data deque is untouched, the data
cursor moves forward one, and the returned flag is `false` exactly when the
step lands on the physical end (which also leaves undo mode). -/
lemma redo_step (gap : Nat) (s : CR α) (h : s.underUndo = true) :
    (redo gap s).1.data = s.data ∧
    (redo gap s).1.dataLimit = s.dataLimit + 1 ∧
    ((redo gap s).1.underUndo = if s.dataLimit + 1 = s.data.length then false else true) ∧
    ((redo gap s).2 = if s.dataLimit + 1 = s.data.length then false else true) := by
  by_cases hr : s.dataLimit + 1 = s.data.length <;>
    simp only [redo, h, hr, if_true, if_pos rfl, reduceIte] <;>
      refine ⟨?_, ?_, ?_, ?_⟩ <;> first
        | trivial
        | (split <;> simp [hr])

/-- Iterating `undo` at most down to the origin: data and cache deques are
untouched, the data cursor drops by the number of steps, the cache cursor
never grows, and any positive number of undos enters undo mode. -/
lemma undoIter_spec (gap : Nat) (t : CR α) (k : Nat) (hk : k ≤ t.dataLimit) :
    (undoIter gap t k).data = t.data ∧ (undoIter gap t k).cache = t.cache ∧
    (undoIter gap t k).dataLimit = t.dataLimit - k ∧
    (undoIter gap t k).cacheLimit ≤ t.cacheLimit ∧
    (0 < k → (undoIter gap t k).underUndo = true) := by
  induction k with
  | zero => simp [undoIter]
  | succ k ih =>
    obtain ⟨h1, h2, h3, h4, _⟩ := ih (Nat.le_of_succ_le hk)
    have hpos : (undoIter gap t k).dataLimit ≠ 0 := by omega
    obtain ⟨g1, g2, g3, g4, g5, _⟩ := undo_step gap (undoIter gap t k) hpos
    refine ⟨?_, ?_, ?_, ?_, fun _ => ?_⟩
    · rw [undoIter, g1, h1]
    · rw [undoIter, g2, h2]
    · rw [undoIter, g3, h3]; omega
    · rw [undoIter]; exact le_trans g4 h4
    · rw [undoIter]; exact g5

lemma div_count_step (N gap : Nat) (h0 : 0 < N) :
    N / gap = (N - 1) / gap + if gap ∣ N then 1 else 0 := by
  have h : N - 1 + 1 = N := Nat.succ_pred_eq_of_pos h0
  calc N / gap = (N - 1 + 1) / gap := by rw [h]
    _ = (N - 1) / gap + if gap ∣ N - 1 + 1 then 1 else 0 := Nat.succ_div _ _
    _ = (N - 1) / gap + if gap ∣ N then 1 else 0 := by rw [h]

/-- The clean-append invariant: on a state whose cursors sit at the end of
both deques, whose cache holds one block-fold per completed earlier block,
`emplaceBack` preserves all of it for the extended history. -/
lemma emplaceBack_clean (gap : Nat) (hg : 0 < gap) (f : α → α → α) (xs : List α) (x : α)
    (s : CR α)
    (hd : s.data = xs) (hdl : s.dataLimit = xs.length) (hu : s.underUndo = false)
    (hclim : s.cacheLimit = s.cache.length)
    (hclen : s.cache.length = (xs.length - 1) / gap)
    (hcont : ∀ i, i < s.cache.length → s.cache.get? i = seedFold f (xs.take ((i + 1) * gap))) :
    (emplaceBack gap f s x).data = xs ++ [x] ∧
    (emplaceBack gap f s x).dataLimit = (xs ++ [x]).length ∧
    (emplaceBack gap f s x).underUndo = false ∧
    (emplaceBack gap f s x).cacheLimit = (emplaceBack gap f s x).cache.length ∧
    (emplaceBack gap f s x).cache.length = ((xs ++ [x]).length - 1) / gap ∧
    (∀ i, i < (emplaceBack gap f s x).cache.length →
      (emplaceBack gap f s x).cache.get? i = seedFold f ((xs ++ [x]).take ((i + 1) * gap))) := by
  have hlen : s.data.length = xs.length := by rw [hd]
  rw [emplaceBack_not_undo gap f s x hu]
  by_cases hA : s.data.length = gap
  · -- first checkpoint
    have hxg : xs.length = gap := hlen.symm.trans hA
    cases xs with
    | nil => exact absurd (hxg.symm) (Nat.pos_iff_ne_zero.mp hg)
    | cons a rest =>
      have hM := makeCache_first gap f s a rest hd hA
      have hc0 : s.cache.length = 0 := by
        rw [hclen, hxg, Nat.div_eq_of_lt (Nat.sub_lt hg Nat.one_pos)]
      have hcnil : s.cache = [] := List.length_eq_zero.mp hc0
      rw [hM]
      refine ⟨by rw [hd], by simp [hlen], hu, by simp, ?_, ?_⟩
      · rw [show ((a :: rest) ++ [x]).length - 1 = gap from by simp [← hxg],
          Nat.div_self hg]
        simp [hcnil]
      · intro i hi
        simp only [hcnil, List.nil_append, List.length_singleton] at hi
        interval_cases i
        simp only [hcnil, List.nil_append, zero_add, one_mul]
        rw [List.take_append_of_le_length (le_of_eq hxg.symm), ← hxg, List.take_length]
        rfl
  · by_cases hB : s.data.length ≠ 0 ∧ s.data.length % gap = 0
    · -- subsequent checkpoint
      obtain ⟨hB2, hB3⟩ := hB
      have hNpos : 0 < xs.length := Nat.pos_of_ne_zero (hlen ▸ hB2)
      have hdvd : gap ∣ xs.length := Nat.dvd_of_mod_eq_zero (hlen ▸ hB3)
      have hq : xs.length / gap * gap = xs.length := Nat.div_mul_cancel hdvd
      have hge : gap ≤ xs.length := Nat.le_of_dvd hNpos hdvd
      have hne : xs.length ≠ gap := fun h => hA (hlen.trans h)
      have h2g : 2 ≤ xs.length / gap := by
        have h1d : 1 ≤ xs.length / gap := (Nat.one_le_div_iff hg).mpr hge
        rcases eq_or_lt_of_le h1d with h | h
        · exfalso; rw [← h, one_mul] at hq; exact hne hq.symm
        · exact h
      have hm : s.cache.length = xs.length / gap - 1 := by
        have := div_count_step xs.length gap hNpos
        rw [if_pos hdvd] at this
        omega
      have hm1 : 1 ≤ s.cache.length := by omega
      have hmg : s.cache.length * gap = xs.length - gap := by
        rw [hm, Nat.sub_mul, one_mul, hq]
      have hlast : s.cache.getLast? = seedFold f (xs.take (s.cache.length * gap)) := by
        rw [List.getLast?_eq_get?, hcont (s.cache.length - 1) (by omega),
          Nat.sub_add_cancel hm1]
      have htl : (xs.take (s.cache.length * gap)).length = s.cache.length * gap := by
        rw [List.length_take]
        exact min_eq_left (le_trans (le_of_eq hmg) (Nat.sub_le _ _))
      obtain ⟨a, r, hxt⟩ : ∃ a r, xs.take (s.cache.length * gap) = a :: r := by
        cases hxx : xs.take (s.cache.length * gap) with
        | nil =>
          exfalso
          rw [hxx, List.length_nil] at htl
          have hpos : 0 < s.cache.length * gap := Nat.mul_pos (by omega) hg
          omega
        | cons a r => exact ⟨a, r, rfl⟩
      have hc : s.cache.getLast? = some (r.foldl f a) := by rw [hlast, hxt]; rfl
      have hM := makeCache_next gap f s (r.foldl f a) hA hB2 hB3 hc
      have hcne : s.cache ≠ [] := by
        intro h; rw [h] at hm1; simp at hm1
      have hnum : getNumCaches s = s.cacheLimit := by
        rw [getNumCaches, if_neg (by simp [List.isEmpty_iff, hcne])]
      have hpast : getIteratorPastCache gap s = xs.length - gap := by
        rw [getIteratorPastCache, hnum, hclim, hmg, hdl]
        exact min_eq_right (by omega)
      have hsf : seedFold f xs = some ((xs.drop (s.cache.length * gap)).foldl f (r.foldl f a)) := by
        conv_lhs => rw [← List.take_append_drop (s.cache.length * gap) xs]
        rw [hxt]
        exact seedFold_cons_append f a r _
      rw [hM]
      refine ⟨by rw [hd], by simp [hlen], hu, by simp, ?_, ?_⟩
      · simp only [List.length_append, List.length_singleton, Nat.add_sub_cancel]
        omega
      · intro i hi
        simp only [List.length_append, List.length_singleton] at hi
        rcases Nat.lt_or_ge i s.cache.length with hilt | hige
        · rw [List.get?_append hilt, hcont i hilt,
            List.take_append_of_le_length
              (le_trans (Nat.mul_le_mul_right gap (by omega))
                (le_trans (le_of_eq hmg) (Nat.sub_le _ _)))]
        · have hie : i = s.cache.length := by omega
          rw [hie, List.get?_concat_length]
          have hig : (s.cache.length + 1) * gap = xs.length := by
            have : s.cache.length + 1 = xs.length / gap := by omega
            rw [this, hq]
          rw [hig, List.take_append_of_le_length (le_refl _), List.take_length, hsf,
            hd, hpast, ← hmg]
    · -- no checkpoint this push
      have hM := makeCache_none gap f s hA hB
      rw [hM]
      refine ⟨by rw [hd], by simp [hlen], hu, hclim, ?_, ?_⟩
      · simp only [List.length_append, List.length_singleton, Nat.add_sub_cancel]
        rcases Nat.eq_zero_or_pos xs.length with h0 | h0
        · rw [hclen, h0]
        · have hnd : ¬ gap ∣ xs.length := by
            intro hdvd
            refine hB ⟨by omega, ?_⟩
            rw [hlen]
            exact Nat.dvd_iff_mod_eq_zero.mp hdvd
          have := div_count_step xs.length gap h0
          rw [if_neg hnd] at this
          rw [hclen]; omega
      · intro i hi
        dsimp only at hi ⊢
        have hmul : (i + 1) * gap ≤ xs.length := by
          have h1 : (i + 1) * gap ≤ s.cache.length * gap :=
            Nat.mul_le_mul_right gap (by omega)
          have h2 : s.cache.length * gap ≤ xs.length - 1 := by
            rw [hclen]; exact Nat.div_mul_le_self _ _
          omega
        rw [List.take_append_of_le_length hmul, hcont i hi]

/-- Iterating `redo` from the origin while strictly below the physical end:
the data deque is untouched, the cursor equals the number of steps and undo
mode persists. -/
lemma redoIter_spec (gap : Nat) (t : CR α) (hU : t.underUndo = true) (hd : t.dataLimit = 0)
    (i : Nat) (hi : i < t.data.length) :
    (redoIter gap t i).data = t.data ∧ (redoIter gap t i).dataLimit = i ∧
    (redoIter gap t i).underUndo = true := by
  induction i with
  | zero => exact ⟨rfl, hd, hU⟩
  | succ i ih =>
    obtain ⟨h1, h2, h3⟩ := ih (Nat.lt_of_succ_lt hi)
    obtain ⟨g1, g2, g3, _⟩ := redo_step gap (redoIter gap t i) h3
    have hne : (redoIter gap t i).dataLimit + 1 ≠ (redoIter gap t i).data.length := by
      rw [h1, h2]; omega
    refine ⟨?_, ?_, ?_⟩
    · rw [redoIter, g1, h1]
    · rw [redoIter, g2, h2]
    · rw [redoIter, g3, if_neg hne]

/-- Characterization of a pure append run: the history holds exactly the
appended layers with both cursors at the end of their deques, the cache
holds `(N-1)/gap` checkpoints, and checkpoint `i` is the fold of the block
`[0, (i+1)*gap)`. -/
theorem append_run_spec (gap : Nat) (hg : 0 < gap) (f : α → α → α) (xs : List α) :
    (run gap f (xs.map Op.app)).data = xs ∧
    (run gap f (xs.map Op.app)).dataLimit = xs.length ∧
    (run gap f (xs.map Op.app)).underUndo = false ∧
    (run gap f (xs.map Op.app)).cacheLimit = (run gap f (xs.map Op.app)).cache.length ∧
    (run gap f (xs.map Op.app)).cache.length = (xs.length - 1) / gap ∧
    (∀ i, i < (run gap f (xs.map Op.app)).cache.length →
      (run gap f (xs.map Op.app)).cache.get? i = seedFold f (xs.take ((i + 1) * gap))) := by
  induction xs using List.reverseRecOn with
  | nil =>
    exact ⟨rfl, rfl, rfl, rfl, by simp [run, init], fun i hi => absurd hi (by simp [run, init])⟩
  | append_singleton xs x ih =>
    obtain ⟨h1, h2, h3, h4, h5, h6⟩ := ih
    rw [List.map_append, List.map_singleton, run_concat]
    exact emplaceBack_clean gap hg f xs x _ h1 h2 h3 h4 h5 h6

/-!
The C++ combiner has type `void (*)(T&, T&)`: both the accumulator and the
visited element (or checkpoint) are passed by mutable reference, so a
combiner could in principle write to the buffer's own storage.  To state
the frame property honestly, `foldMut` threads a combiner of type
`α → α → α × α` (new accumulator, new element) through the visited
elements, and `reduceToM` / `reduceToVis` write the possibly-updated
elements back into the deques exactly where the source handed out
references.
-/

def foldMut (f : α → α → α × α) : α → List α → α × List α
  | v, [] => (v, [])
  | v, e :: es =>
    let p := f v e
    let q := foldMut f p.1 es
    (q.1, p.2 :: q.2)

/-- `reduceTo(T& value)` with element references made explicit. -/
def reduceToM (gap : Nat) (f : α → α → α × α) (s : CR α) (v : α) : CR α × Option α :=
  if getNumCaches s = 0 then
    let r := foldMut f v (s.data.take s.dataLimit)
    ({ s with data := r.2 ++ s.data.drop s.dataLimit }, some r.1)
  else
    match s.cache.get? (s.cacheLimit - 1) with
    | none => (s, none)
    | some c =>
      let p := f v c
      let r := foldMut f p.1 ((s.data.take s.dataLimit).drop (getIteratorPastCache gap s))
      ({ s with
          cache := s.cache.set (s.cacheLimit - 1) p.2,
          data := s.data.take (getIteratorPastCache gap s) ++ r.2 ++
            s.data.drop s.dataLimit },
        some r.1)

/-- `reduceTo(F2 f)` (the visitor overload) with the element reference made
explicit: the visitor receives each visited element (and the checkpoint) by
mutable reference, modelled as returning the updated element. -/
def reduceToVis (gap : Nat) (g : α → α) (s : CR α) : CR α :=
  if getNumCaches s = 0 then
    { s with data := (s.data.take s.dataLimit).map g ++ s.data.drop s.dataLimit }
  else
    match s.cache.get? (s.cacheLimit - 1) with
    | none => s
    | some c =>
      { s with
          cache := s.cache.set (s.cacheLimit - 1) (g c),
          data := s.data.take (getIteratorPastCache gap s) ++
            ((s.data.take s.dataLimit).drop (getIteratorPastCache gap s)).map g ++
            s.data.drop s.dataLimit }

lemma foldMut_keep (f : α → α → α × α) (hf : ∀ a e, (f a e).2 = e) (v : α) (l : List α) :
    foldMut f v l = (l.foldl (fun a e => (f a e).1) v, l) := by
  induction l generalizing v with
  | nil => rfl
  | cons e es ih => simp [foldMut, ih, hf]

lemma set_get?_self (l : List α) (n : Nat) (a : α) (h : l.get? n = some a) :
    l.set n a = l := by
  induction l generalizing n with
  | nil => simp at h
  | cons b bs ih =>
    cases n with
    | zero =>
      simp only [List.get?] at h
      injection h with h
      rw [h.symm, List.set]
    | succ n =>
      simp only [List.get?] at h
      rw [List.set, ih n h]

lemma take_drop_assemble (l : List α) (p d : Nat) (h : p ≤ d) :
    l.take p ++ (l.take d).drop p ++ l.drop d = l := by
  rw [show l.take p = (l.take d).take p from by rw [List.take_take, min_eq_left h],
    List.take_append_drop, List.take_append_drop]

/-- C1: the claimed reduction equivalence fails on a reachable state.  With
gap 1, appending 1 and 2, undoing twice and redoing twice leaves
`cacheLimit = 2` with only one stored checkpoint, so `reduceTo` dereferences
a checkpoint past the end of the cache (undefined behaviour in the source,
`none` here) instead of producing the from-scratch fold of the valid prefix
`[0, historyCursor)`, which is `0 + 1 + 2 = 3`. -/
theorem claim_C1_reduce_divergence :
    reduceTo 1 Nat.add
      (run 1 Nat.add [Op.app 1, Op.app 2, Op.undo, Op.undo, Op.redo, Op.redo]) 0 = none ∧
    ((run 1 Nat.add [Op.app 1, Op.app 2, Op.undo, Op.undo, Op.redo, Op.redo]).data.take
      (run 1 Nat.add [Op.app 1, Op.app 2, Op.undo, Op.undo, Op.redo, Op.redo]).dataLimit).foldl
      Nat.add 0 = 3 := by
  decide

/-- C2: the claimed cursor bounds fail on reachable states.  On a fresh
buffer, `undo` then `redo` pushes `historyCursor` to 1 while the history is
empty (the source increments `m_dataLimit` past `end()`); and with gap 1,
append-append-undo-undo-redo-redo pushes `checkpointCursor` to 2 while only
one checkpoint is stored (the source increments `m_cacheLimit` past
`m_cache.end()`). -/
theorem claim_C2_cursor_bounds_violated :
    (run 1 Nat.add ([Op.undo, Op.redo] : List (Op Nat))).dataLimit = 1 ∧
    (run 1 Nat.add ([Op.undo, Op.redo] : List (Op Nat))).data.length = 0 ∧
    (run 1 Nat.add [Op.app 1, Op.app 2, Op.undo, Op.undo, Op.redo, Op.redo]).cacheLimit = 2 ∧
    (run 1 Nat.add [Op.app 1, Op.app 2, Op.undo, Op.undo, Op.redo, Op.redo]).cache.length = 1 := by
  decide

/-- C3: undo/redo symmetry fails on a reachable state.  With gap 1 after
appending 1 and 2 and undoing once, the state has `historyCursor = 1` and
`checkpointCursor = 0`; a further `undo` returns `true` without decrementing
`checkpointCursor` (blocked by the `noCaches` guard), but the immediate
`redo` increments it (guarded only by cache non-emptiness), so the
checkpoint cursor comes back as 1, not the pre-undo 0. -/
theorem claim_C3_symmetry_violated :
    (undo 1 (run 1 Nat.add [Op.app 1, Op.app 2, Op.undo])).2 = true ∧
    (run 1 Nat.add [Op.app 1, Op.app 2, Op.undo]).cacheLimit = 0 ∧
    (redo 1 (undo 1 (run 1 Nat.add [Op.app 1, Op.app 2, Op.undo])).1).1.dataLimit =
      (run 1 Nat.add [Op.app 1, Op.app 2, Op.undo]).dataLimit ∧
    (redo 1 (undo 1 (run 1 Nat.add [Op.app 1, Op.app 2, Op.undo])).1).1.cacheLimit = 1 := by
  decide

/-- C4 counterexample: after appending `N = 1` layer with gap `g = 1` and no
undo, the claim demands `checkpointCursor = N / g = 1`, but checkpoint
creation is deferred to the next append, so the code leaves it at 0. -/
theorem claim_C4_counterexample :
    (run 1 Nat.add [Op.app 7]).cacheLimit ≠ 1 / 1 := by
  decide

/-- C4 (amended): after appending `N` layers with gap `g ≥ 1` and no undo,
`checkpointCursor = (N - 1) / g` (0 for `N = 0`), it coincides with the
number of stored checkpoints, and checkpoint `i` (0-indexed) holds the
combiner-fold of history elements `[0, (i+1)*g)`. -/
theorem claim_C4_checkpoint_count (gap : Nat) (hg : 0 < gap) (f : α → α → α) (xs : List α) :
    (run gap f (xs.map Op.app)).cacheLimit = (xs.length - 1) / gap ∧
    (run gap f (xs.map Op.app)).cache.length = (xs.length - 1) / gap ∧
    (∀ i, i < (run gap f (xs.map Op.app)).cache.length →
      (run gap f (xs.map Op.app)).cache.get? i = seedFold f (xs.take ((i + 1) * gap))) := by
  obtain ⟨_, _, _, h4, h5, h6⟩ := append_run_spec gap hg f xs
  exact ⟨h4.trans h5, h5, h6⟩

/-- C4 witness: gap 3, layers 1,2,3,4: the cursor is `(4-1)/3 = 1` and the
single checkpoint holds the fold of `[1,2,3]`. -/
theorem claim_C4_checkpoint_count_witness :
    (run 3 Nat.add ([1, 2, 3, 4].map Op.app)).cacheLimit = (4 - 1) / 3 ∧
    (run 3 Nat.add ([1, 2, 3, 4].map Op.app)).cache.get? 0 =
      seedFold Nat.add ([1, 2, 3, 4].take ((0 + 1) * 3)) := by
  obtain ⟨h1, h2, h3⟩ := claim_C4_checkpoint_count 3 (by decide) Nat.add [1, 2, 3, 4]
  exact ⟨h1, h3 0 (by rw [h2]; decide)⟩

/-- C5: `redo` is a no-op returning `false` when not under undo; otherwise
it always advances the cursor by one, returns `false` exactly when the step
reaches the physical end (clearing undo mode then); and after fully undoing
`N ≥ 1` appended layers, `N` redos return `true` for every call except the
last, which returns `false`, still performs the step, and leaves undo
mode. -/
theorem claim_C5_redo_contract (gap : Nat) (hg : 0 < gap) (f : α → α → α) :
    (∀ s : CR α, s.underUndo = false → redo gap s = (s, false)) ∧
    (∀ s : CR α, s.underUndo = true →
      (redo gap s).1.dataLimit = s.dataLimit + 1 ∧
      ((redo gap s).2 = false ↔ s.dataLimit + 1 = s.data.length) ∧
      (s.dataLimit + 1 = s.data.length → (redo gap s).1.underUndo = false)) ∧
    (∀ xs : List α, 0 < xs.length →
      (∀ i, i + 1 < xs.length →
        (redo gap (redoIter gap (undoIter gap (run gap f (xs.map Op.app)) xs.length) i)).2 =
          true) ∧
      (redo gap (redoIter gap (undoIter gap (run gap f (xs.map Op.app)) xs.length)
        (xs.length - 1))).2 = false ∧
      (redoIter gap (undoIter gap (run gap f (xs.map Op.app)) xs.length)
        xs.length).underUndo = false ∧
      (redoIter gap (undoIter gap (run gap f (xs.map Op.app)) xs.length)
        xs.length).dataLimit = xs.length) := by
  refine ⟨?_, ?_, ?_⟩
  · intro s hs
    simp [redo, hs]
  · intro s hs
    obtain ⟨_, g2, g3, g4⟩ := redo_step gap s hs
    refine ⟨g2, ?_, ?_⟩
    · rw [g4]
      by_cases h : s.dataLimit + 1 = s.data.length <;> simp [h]
    · intro h
      rw [g3, if_pos h]
  · intro xs hxs
    obtain ⟨a1, a2, a3, _, _, _⟩ := append_run_spec gap hg f xs
    have hkle : xs.length ≤ (run gap f (xs.map Op.app)).dataLimit := le_of_eq a2.symm
    obtain ⟨u1, _, u3, _, u5⟩ := undoIter_spec gap (run gap f (xs.map Op.app)) xs.length hkle
    have ht0 : (undoIter gap (run gap f (xs.map Op.app)) xs.length).dataLimit = 0 := by
      rw [u3, a2]; omega
    have htU : (undoIter gap (run gap f (xs.map Op.app)) xs.length).underUndo = true :=
      u5 hxs
    have htd : (undoIter gap (run gap f (xs.map Op.app)) xs.length).data = xs := by
      rw [u1, a1]
    refine ⟨?_, ?_, ?_, ?_⟩
    · intro i hi
      obtain ⟨r1, r2, r3⟩ :=
        redoIter_spec gap _ htU ht0 i (by rw [htd]; omega)
      obtain ⟨_, _, _, g4⟩ := redo_step gap _ r3
      rw [g4, if_neg (by rw [r1, r2, htd]; omega)]
    · obtain ⟨r1, r2, r3⟩ :=
        redoIter_spec gap _ htU ht0 (xs.length - 1) (by rw [htd]; omega)
      obtain ⟨_, _, _, g4⟩ := redo_step gap _ r3
      rw [g4, if_pos (by rw [r1, r2, htd]; omega)]
    · obtain ⟨r1, r2, r3⟩ :=
        redoIter_spec gap _ htU ht0 (xs.length - 1) (by rw [htd]; omega)
      obtain ⟨_, _, g3, _⟩ := redo_step gap _ r3
      have hstep : redoIter gap (undoIter gap (run gap f (xs.map Op.app)) xs.length)
          xs.length =
          (redo gap (redoIter gap (undoIter gap (run gap f (xs.map Op.app)) xs.length)
            (xs.length - 1))).1 := by
        rw [congrArg (redoIter gap (undoIter gap (run gap f (xs.map Op.app)) xs.length))
          (show xs.length = (xs.length - 1) + 1 by omega)]
        rfl
      rw [hstep, g3, if_pos (by rw [r1, r2, htd]; omega)]
    · obtain ⟨r1, r2, r3⟩ :=
        redoIter_spec gap _ htU ht0 (xs.length - 1) (by rw [htd]; omega)
      obtain ⟨_, g2, _, _⟩ := redo_step gap _ r3
      have hstep : redoIter gap (undoIter gap (run gap f (xs.map Op.app)) xs.length)
          xs.length =
          (redo gap (redoIter gap (undoIter gap (run gap f (xs.map Op.app)) xs.length)
            (xs.length - 1))).1 := by
        rw [congrArg (redoIter gap (undoIter gap (run gap f (xs.map Op.app)) xs.length))
          (show xs.length = (xs.length - 1) + 1 by omega)]
        rfl
      rw [hstep, g2, r2]
      omega

/-- C5 witness: gap 1, layers 5 and 6, fully undone: the first redo returns
`true`, the second returns `false` and clears undo mode; `redo` on the
fresh (not-under-undo) buffer is a no-op returning `false`. -/
theorem claim_C5_redo_contract_witness :
    redo 1 (init : CR Nat) = (init, false) ∧
    (redo 1 (redoIter 1 (undoIter 1 (run 1 Nat.add ([5, 6].map Op.app)) 2) 0)).2 = true ∧
    (redo 1 (redoIter 1 (undoIter 1 (run 1 Nat.add ([5, 6].map Op.app)) 2) 1)).2 = false ∧
    (redoIter 1 (undoIter 1 (run 1 Nat.add ([5, 6].map Op.app)) 2) 2).underUndo = false := by
  obtain ⟨p1, _, p3⟩ := claim_C5_redo_contract 1 (by decide) Nat.add
  obtain ⟨q1, q2, q3, _⟩ := p3 [5, 6] (by decide)
  exact ⟨p1 init rfl, q1 0 (by decide), q2, q3⟩

/-- C6: `undo` always enters undo mode; at `historyCursor = 0` it returns
`false` with no other mutation; otherwise it decrements `historyCursor` by
one, decrements `checkpointCursor` by one exactly when valid checkpoints
exist and the pre-decrement `historyCursor` is a multiple of the gap, and
returns `true`. -/
theorem claim_C6_undo_contract (gap : Nat) (s : CR α) :
    (undo gap s).1.underUndo = true ∧
    (s.dataLimit = 0 → undo gap s = ({ s with underUndo := true }, false)) ∧
    (s.dataLimit ≠ 0 →
      (undo gap s).2 = true ∧
      (undo gap s).1.dataLimit = s.dataLimit - 1 ∧
      (undo gap s).1.data = s.data ∧
      (undo gap s).1.cache = s.cache ∧
      ((getNumCaches s ≠ 0 ∧ s.dataLimit % gap = 0) →
        (undo gap s).1.cacheLimit = s.cacheLimit - 1 ∧ 0 < s.cacheLimit) ∧
      (¬(getNumCaches s ≠ 0 ∧ s.dataLimit % gap = 0) →
        (undo gap s).1.cacheLimit = s.cacheLimit)) := by
  have hnum : getNumCaches ({ s with underUndo := true } : CR α) = getNumCaches s := rfl
  by_cases h0 : s.dataLimit = 0
  · refine ⟨?_, fun _ => ?_, fun h => absurd h0 h⟩
    · simp [undo, h0]
    · simp [undo, h0]
  · by_cases hc : getNumCaches s ≠ 0 ∧ s.dataLimit % gap = 0
    · refine ⟨?_, fun h => absurd h h0, fun _ => ⟨?_, ?_, ?_, ?_, fun _ => ⟨?_, ?_⟩,
        fun hn => absurd hc hn⟩⟩ <;>
        first
          | (simp [undo, h0, hnum, hc])
          | (rcases hc with ⟨hc1, _⟩
             rw [getNumCaches] at hc1
             by_cases he : s.cache.isEmpty <;> simp [he] at hc1 <;> try omega)
    · refine ⟨?_, fun h => absurd h h0, fun _ => ⟨?_, ?_, ?_, ?_, fun hn => absurd hn hc,
        fun _ => ?_⟩⟩ <;> simp [undo, h0, hnum, hc]

/-- C6 witness: gap 2 on a state with two layers, one valid checkpoint and
the cursor on a checkpoint boundary: undo succeeds, steps the history
cursor from 2 to 1 and drops the checkpoint cursor from 1 to 0. -/
theorem claim_C6_undo_contract_witness :
    (undo 2 (⟨[3, 4], [9], 2, 1, false⟩ : CR Nat)).1.underUndo = true ∧
    (undo 2 (⟨[3, 4], [9], 2, 1, false⟩ : CR Nat)).2 = true ∧
    (undo 2 (⟨[3, 4], [9], 2, 1, false⟩ : CR Nat)).1.dataLimit = 2 - 1 ∧
    (undo 2 (⟨[3, 4], [9], 2, 1, false⟩ : CR Nat)).1.cacheLimit = 1 - 1 := by
  obtain ⟨h1, _, h3⟩ := claim_C6_undo_contract 2 (⟨[3, 4], [9], 2, 1, false⟩ : CR Nat)
  obtain ⟨r1, r2, _, _, r5, _⟩ := h3 (by decide)
  exact ⟨h1, r1, r2, (r5 (by decide)).1⟩

/-- C7: from `N` appended layers, `0 < k < N` undos followed by one append:
`getLast` returns the new layer, the history and checkpoint deques have
been truncated to their cursors, undo mode is off, and `redo` is a strict
no-op returning `false`. -/
theorem claim_C7_truncate_on_append (gap : Nat) (hg : 0 < gap) (f : α → α → α)
    (xs : List α) (k : Nat) (x : α) (hk0 : 0 < k) (hkN : k < xs.length) :
    getLast (emplaceBack gap f (undoIter gap (run gap f (xs.map Op.app)) k) x) = some x ∧
    (emplaceBack gap f (undoIter gap (run gap f (xs.map Op.app)) k) x).underUndo = false ∧
    redo gap (emplaceBack gap f (undoIter gap (run gap f (xs.map Op.app)) k) x) =
      (emplaceBack gap f (undoIter gap (run gap f (xs.map Op.app)) k) x, false) ∧
    (emplaceBack gap f (undoIter gap (run gap f (xs.map Op.app)) k) x).data.length =
      (emplaceBack gap f (undoIter gap (run gap f (xs.map Op.app)) k) x).dataLimit ∧
    (emplaceBack gap f (undoIter gap (run gap f (xs.map Op.app)) k) x).cache.length =
      (emplaceBack gap f (undoIter gap (run gap f (xs.map Op.app)) k) x).cacheLimit := by
  obtain ⟨a1, a2, _, a4, _, _⟩ := append_run_spec gap hg f xs
  obtain ⟨u1, u2, u3, u4, u5⟩ :=
    undoIter_spec gap (run gap f (xs.map Op.app)) k (by omega)
  have htU : (undoIter gap (run gap f (xs.map Op.app)) k).underUndo = true := u5 hk0
  have hE := emplaceBack_under_undo gap f (undoIter gap (run gap f (xs.map Op.app)) k) x htU
  have hdlen : (clearUndo (undoIter gap (run gap f (xs.map Op.app)) k)).data.length =
      xs.length - k := by
    rw [clearUndo]
    split <;>
      simp [u1, u3, a1, a2, List.length_take, min_eq_left (Nat.sub_le xs.length k)]
  have hclen : (clearUndo (undoIter gap (run gap f (xs.map Op.app)) k)).cache.length =
      (clearUndo (undoIter gap (run gap f (xs.map Op.app)) k)).cacheLimit := by
    rw [clearUndo]
    split
    · rfl
    · have hle : (undoIter gap (run gap f (xs.map Op.app)) k).cacheLimit ≤
          (undoIter gap (run gap f (xs.map Op.app)) k).cache.length := by
        rw [u2]
        exact le_trans u4 (le_of_eq a4)
      simp [List.length_take, min_eq_left hle]
  refine ⟨?_, ?_, ?_, ?_, ?_⟩
  · rw [hE, getLast]
    simp only []
    rw [if_neg (by omega)]
    simp only [Nat.add_sub_cancel]
    rw [List.get?_concat_length]
  · rw [hE]
  · rw [hE, redo]
    simp
  · rw [hE]
    simp
  · rw [hE]
    exact hclen

/-- C7 witness: gap 3, layers 1,2,3, one undo, then appending 9. -/
theorem claim_C7_truncate_on_append_witness :
    getLast (emplaceBack 3 Nat.add (undoIter 3 (run 3 Nat.add ([1, 2, 3].map Op.app)) 1) 9) =
      some 9 ∧
    (emplaceBack 3 Nat.add (undoIter 3 (run 3 Nat.add ([1, 2, 3].map Op.app)) 1) 9).underUndo =
      false ∧
    redo 3 (emplaceBack 3 Nat.add (undoIter 3 (run 3 Nat.add ([1, 2, 3].map Op.app)) 1) 9) =
      (emplaceBack 3 Nat.add (undoIter 3 (run 3 Nat.add ([1, 2, 3].map Op.app)) 1) 9, false) := by
  obtain ⟨h1, h2, h3, _, _⟩ :=
    claim_C7_truncate_on_append 3 (by decide) Nat.add [1, 2, 3] 1 9 (by decide) (by decide)
  exact ⟨h1, h2, h3⟩

/-- C8: the claimed replay bound fails on a reachable state.  With gap 2:
append 1,2,3,4, undo twice (the first undo crosses boundary 4 and zeroes
the checkpoint cursor although no checkpoint covers `[0,4)`), then append 5
(which wipes the now-"invalid" cache entirely and skips checkpoint
creation) and append 6.  A single `reduceTo` now folds 4 history elements
with no checkpoint — more than `gap` elements plus one checkpoint access
(`gap + 1 = 3`).  The counting combiner confirms 4 applications. -/
theorem claim_C8_replay_bound_violated :
    reduceCount 2 (run 2 Nat.add
      [Op.app 1, Op.app 2, Op.app 3, Op.app 4, Op.undo, Op.undo, Op.app 5, Op.app 6]) = 4 ∧
    ¬(reduceCount 2 (run 2 Nat.add
      [Op.app 1, Op.app 2, Op.app 3, Op.app 4, Op.undo, Op.undo, Op.app 5, Op.app 6]) ≤ 2 + 1) ∧
    reduceTo 2 (fun a _ => a + 1) (run 2 Nat.add
      [Op.app 1, Op.app 2, Op.app 3, Op.app 4, Op.undo, Op.undo, Op.app 5, Op.app 6]) 0 =
      some 4 := by
  decide

/-- C9: under the precondition `historyCursor > 0` (with the cursor inside
the stored history), `getLast` returns the history element at position
`historyCursor - 1`; at `historyCursor = 0` there is no valid layer and the
out-of-range access yields no value (`none`) rather than a sentinel
element. -/
theorem claim_C9_getLast_contract (s : CR α) :
    (s.dataLimit = 0 → getLast s = none) ∧
    (0 < s.dataLimit → s.dataLimit ≤ s.data.length →
      ∃ a, getLast s = some a ∧ s.data.get? (s.dataLimit - 1) = some a) := by
  constructor
  · intro h
    simp [getLast, h]
  · intro h1 h2
    have hlt : s.dataLimit - 1 < s.data.length := by omega
    refine ⟨s.data.get ⟨s.dataLimit - 1, hlt⟩, ?_, List.get?_eq_get hlt⟩
    rw [getLast, if_neg (by omega)]
    exact List.get?_eq_get hlt

/-- C9 witness: a one-layer buffer yields its layer; the fresh buffer
yields `none`. -/
theorem claim_C9_getLast_contract_witness :
    getLast (⟨[7], [], 1, 0, false⟩ : CR Nat) = some 7 ∧
    getLast (init : CR Nat) = none := by
  obtain ⟨a, ha1, ha2⟩ :=
    (claim_C9_getLast_contract (⟨[7], [], 1, 0, false⟩ : CR Nat)).2 (by decide) (by decide)
  have ha : a = 7 := by
    simpa using ha2.symm
  exact ⟨ha ▸ ha1, (claim_C9_getLast_contract (init : CR Nat)).1 rfl⟩

/-- C10: provided the combiner only rewrites its accumulator argument and
returns every element reference unchanged, `reduceTo` (accumulator form)
leaves the whole buffer state intact and computes the same value as the
pure fold; and a visitor that leaves elements unchanged keeps the state
intact in the visitor form.  The remaining query operations
(`getLastCache`, `getLast`, `underUndo`) are state readers by
construction. -/
theorem claim_C10_queries_frame (gap : Nat) (fm : α → α → α × α) (g : α → α)
    (s : CR α) (v : α) (hf : ∀ a e, (fm a e).2 = e) (hg : ∀ e, g e = e) :
    (reduceToM gap fm s v).1 = s ∧
    (reduceToM gap fm s v).2 = reduceTo gap (fun a e => (fm a e).1) s v ∧
    reduceToVis gap g s = s := by
  have hgid : g = id := funext hg
  have hmin : getIteratorPastCache gap s ≤ s.dataLimit := min_le_left _ _
  by_cases h0 : getNumCaches s = 0
  · refine ⟨?_, ?_, ?_⟩
    · simp [reduceToM, h0, foldMut_keep fm hf, List.take_append_drop]
    · simp [reduceToM, reduceTo, h0, foldMut_keep fm hf]
    · simp [reduceToVis, h0, hgid, List.take_append_drop]
  · cases hc : s.cache.get? (s.cacheLimit - 1) with
    | none =>
      have hc' : s.cache[s.cacheLimit - 1]? = none := by
        rw [← List.get?_eq_getElem?]; exact hc
      refine ⟨?_, ?_, ?_⟩ <;> simp [reduceToM, reduceTo, reduceToVis, h0, hc, hc']
    | some c =>
      have hc' : s.cache[s.cacheLimit - 1]? = some c := by
        rw [← List.get?_eq_getElem?]; exact hc
      have hset : s.cache.set (s.cacheLimit - 1) c = s.cache :=
        set_get?_self s.cache (s.cacheLimit - 1) c hc
      have hdata : s.data.take (getIteratorPastCache gap s) ++
          (s.data.take s.dataLimit).drop (getIteratorPastCache gap s) ++
          s.data.drop s.dataLimit = s.data :=
        take_drop_assemble s.data _ _ hmin
      have hfc : (fm v c).2 = c := hf v c
      have hgc : g c = c := hg c
      refine ⟨?_, ?_, ?_⟩
      · simp [reduceToM, h0, hc, hc', foldMut_keep fm hf, hfc, hset, hdata]
      · simp [reduceToM, reduceTo, h0, hc, hc', foldMut_keep fm hf]
      · simp [reduceToVis, h0, hc, hc', hgc, hgid, hset, hdata]

/-- C10 witness: a concrete two-layer, one-checkpoint state with an
element-preserving adding combiner and the identity visitor. -/
theorem claim_C10_queries_frame_witness :
    (reduceToM 1 (fun a e => (a + e, e)) (⟨[1, 2], [1], 2, 1, false⟩ : CR Nat) 0).1 =
      (⟨[1, 2], [1], 2, 1, false⟩ : CR Nat) ∧
    reduceToVis 1 (fun e => e) (⟨[1, 2], [1], 2, 1, false⟩ : CR Nat) =
      (⟨[1, 2], [1], 2, 1, false⟩ : CR Nat) := by
  obtain ⟨h1, _, h3⟩ :=
    claim_C10_queries_frame 1 (fun a e => (a + e, e)) (fun e => e)
      (⟨[1, 2], [1], 2, 1, false⟩ : CR Nat) 0 (fun _ _ => rfl) (fun _ => rfl)
  exact ⟨h1, h3⟩

end Skribble
